import Mathlib

/-!
Verification of the SpeechFunctionCaller core against its specification.

The definitions below are shallow embeddings of the repository's source:
`Transcriber.java` (chunk reassembly, debounce scheduling, transcription
retry, WebSocket push), `FunctionResolver.java` (context compression,
JSON escaping), `InstanceManager.java` (per-client instance store), and
the client script (`SpeechFunctionCaller` class: adaptive polling backoff
and energy-based silence detection).  Machine integers are modelled as
`Nat`/`Int`, timestamps in milliseconds as `Int`, JavaScript numbers in
the backoff computation as `Rat`, and strings as Lean strings or lists
of characters.
-/

namespace SpeechFunctionCaller

/-! ## Chunk reassembly: `Transcriber.base64AudioChunks` / `addBase64Data` /
`startTranscription` -/

/-- A sequence key of an audio chunk.  In the source it is the string
`"<timestamp>-<index>"`; the comparator of `Transcriber.base64AudioChunks`
splits the string at `"-"`, parses both components, and compares the numeric
timestamp first and the numeric index second, so a key is embedded as the
pair `(timestamp, index)` that the comparator extracts. -/
abbrev SeqKey := Nat × Nat

/-- The strict order implemented by the `TreeMap` comparator of
`Transcriber.base64AudioChunks` (Transcriber.java lines 41-58): compare
timestamps first; if they are equal, compare the sequence indices. -/
def keyLt (a b : SeqKey) : Prop :=
  a.1 < b.1 ∨ (a.1 = b.1 ∧ a.2 < b.2)

instance (a b : SeqKey) : Decidable (keyLt a b) :=
  inferInstanceAs (Decidable (a.1 < b.1 ∨ (a.1 = b.1 ∧ a.2 < b.2)))

/-- `keyLt` lifted to stored map entries (key paired with decoded payload). -/
def entryLt (a b : SeqKey × List Nat) : Prop := keyLt a.1 b.1

instance (a b : SeqKey × List Nat) : Decidable (entryLt a b) :=
  inferInstanceAs (Decidable (keyLt a.1 b.1))

theorem keyLt_asymm {a b : SeqKey} (h : keyLt a b) (h' : keyLt b a) : False := by
  rcases h with h | ⟨h1, h2⟩ <;> rcases h' with h' | ⟨h1', h2'⟩ <;> omega

theorem keyLt_trans {a b c : SeqKey} (h : keyLt a b) (h' : keyLt b c) :
    keyLt a c := by
  unfold keyLt at *; omega

theorem keyLt_of_not_of_ne {a b : SeqKey} (h : ¬ keyLt a b) (h' : a ≠ b) :
    keyLt b a := by
  rcases a with ⟨a1, a2⟩; rcases b with ⟨b1, b2⟩
  unfold keyLt at *
  simp only [ne_eq, Prod.mk.injEq] at h'
  omega

instance : IsAntisymm (SeqKey × List Nat) entryLt where
  antisymm := fun _ _ h h' => (keyLt_asymm h h').elim

/-- `TreeMap.put` on the sorted association list modelling
`base64AudioChunks`: insert the entry before the first strictly greater key;
on an equal key Java's `TreeMap.put` overwrites the stored value. -/
def treePut : List (SeqKey × List Nat) → SeqKey → List Nat →
    List (SeqKey × List Nat)
  | [], k, v => [(k, v)]
  | (k₁, v₁) :: rest, k, v =>
    if keyLt k k₁ then (k, v) :: (k₁, v₁) :: rest
    else if k = k₁ then (k, v) :: rest
    else (k₁, v₁) :: treePut rest k v

/-- `Transcriber.addBase64Data` applied to a whole arrival sequence: each
arriving chunk is `put` into the map keyed by its sequence
(Transcriber.java line 155).  Base64 decoding is applied per chunk in
`startTranscription`; payloads are embedded as their decoded byte lists. -/
def buildStore (arrivals : List (SeqKey × List Nat)) : List (SeqKey × List Nat) :=
  arrivals.foldl (fun st c => treePut st c.1 c.2) []

/-- The buffer `Transcriber.startTranscription` assembles (lines 269-286):
the decoded payloads of the stored chunks concatenated in map (comparator)
order. -/
def assembleBuffer (store : List (SeqKey × List Nat)) : List Nat :=
  (store.map Prod.snd).flatten

/-- Non-strict comparator order on chunk entries, used to state the
specification's "sorted first by timestamp, then by index". -/
def keyLe (a b : SeqKey × List Nat) : Bool :=
  decide (keyLt a.1 b.1) || decide (a.1 = b.1)

/-- The arrival collection sorted first by numeric timestamp and then by
numeric index. -/
def sortChunks (l : List (SeqKey × List Nat)) : List (SeqKey × List Nat) :=
  l.mergeSort keyLe

theorem mem_treePut {st : List (SeqKey × List Nat)} {k : SeqKey} {v : List Nat}
    {e : SeqKey × List Nat} (h : e ∈ treePut st k v) : e = (k, v) ∨ e ∈ st := by
  induction st with
  | nil => simpa [treePut] using h
  | cons e₁ rest ih =>
    obtain ⟨k₁, v₁⟩ := e₁
    by_cases hlt : keyLt k k₁
    · simp only [treePut, if_pos hlt, List.mem_cons] at h ⊢
      tauto
    · by_cases heq : k = k₁
      · simp only [treePut, if_neg hlt, if_pos heq, List.mem_cons] at h ⊢
        tauto
      · simp only [treePut, if_neg hlt, if_neg heq, List.mem_cons] at h ⊢
        rcases h with h | h
        · tauto
        · rcases ih h with h' | h'
          · exact Or.inl h'
          · exact Or.inr (Or.inr h')

theorem pairwise_treePut {st : List (SeqKey × List Nat)} (k : SeqKey)
    (v : List Nat) (hs : st.Pairwise entryLt) :
    (treePut st k v).Pairwise entryLt := by
  induction st with
  | nil => simp [treePut]
  | cons e rest ih =>
    obtain ⟨k₁, v₁⟩ := e
    rw [List.pairwise_cons] at hs
    obtain ⟨h1, h2⟩ := hs
    by_cases hlt : keyLt k k₁
    · simp only [treePut, if_pos hlt]
      refine List.Pairwise.cons ?_ (List.Pairwise.cons h1 h2)
      intro e' he'
      rcases List.mem_cons.mp he' with rfl | he'
      · exact hlt
      · exact keyLt_trans hlt (h1 e' he')
    · by_cases heq : k = k₁
      · subst heq
        simp only [treePut, if_neg hlt, if_pos rfl]
        exact List.Pairwise.cons h1 h2
      · simp only [treePut, if_neg hlt, if_neg heq]
        refine List.Pairwise.cons ?_ (ih h2)
        intro e' he'
        rcases mem_treePut he' with rfl | he'
        · exact keyLt_of_not_of_ne hlt heq
        · exact h1 e' he'

theorem treePut_perm_of_not_mem {st : List (SeqKey × List Nat)} {k : SeqKey}
    {v : List Nat} (h : k ∉ st.map Prod.fst) :
    (treePut st k v).Perm ((k, v) :: st) := by
  induction st with
  | nil => simp [treePut]
  | cons e rest ih =>
    obtain ⟨k₁, v₁⟩ := e
    simp only [List.map_cons, List.mem_cons] at h
    push_neg at h
    obtain ⟨hne, hmem⟩ := h
    by_cases hlt : keyLt k k₁
    · simp [treePut, if_pos hlt]
    · rw [treePut, if_neg hlt, if_neg hne]
      exact (List.Perm.cons _ (ih hmem)).trans (List.Perm.swap _ _ _)

theorem buildStore_foldl_aux (l : List (SeqKey × List Nat)) :
    ∀ st : List (SeqKey × List Nat), st.Pairwise entryLt →
      ((st ++ l).map Prod.fst).Nodup →
      (l.foldl (fun acc c => treePut acc c.1 c.2) st).Pairwise entryLt ∧
        (l.foldl (fun acc c => treePut acc c.1 c.2) st).Perm (st ++ l) := by
  induction l with
  | nil => intro st hs _; simpa using hs
  | cons c rest ih =>
    intro st hs hn
    obtain ⟨k, v⟩ := c
    have hk : k ∉ st.map Prod.fst := by
      rw [List.map_append] at hn
      obtain ⟨_, _, hdisj⟩ := List.nodup_append.mp hn
      intro hmem
      exact hdisj hmem (by simp)
    have hput : (treePut st k v).Perm ((k, v) :: st) := treePut_perm_of_not_mem hk
    have hp : (treePut st k v ++ rest).Perm (st ++ (k, v) :: rest) :=
      (hput.append_right rest).trans List.perm_middle.symm
    have hn' : ((treePut st k v ++ rest).map Prod.fst).Nodup :=
      ((hp.map Prod.fst).nodup_iff).mpr hn
    obtain ⟨ha, hb⟩ := ih (treePut st k v) (pairwise_treePut k v hs) hn'
    exact ⟨ha, hb.trans hp⟩

theorem buildStore_sorted_perm {l : List (SeqKey × List Nat)}
    (hnodup : (l.map Prod.fst).Nodup) :
    (buildStore l).Pairwise entryLt ∧ (buildStore l).Perm l := by
  have := buildStore_foldl_aux l [] (List.Pairwise.nil) (by simpa using hnodup)
  simpa [buildStore] using this

theorem keyLe_trans (a b c : SeqKey × List Nat) (h : keyLe a b = true)
    (h' : keyLe b c = true) : keyLe a c = true := by
  obtain ⟨⟨a1, a2⟩, _⟩ := a
  obtain ⟨⟨b1, b2⟩, _⟩ := b
  obtain ⟨⟨c1, c2⟩, _⟩ := c
  simp only [keyLe, Bool.or_eq_true, decide_eq_true_eq, Prod.mk.injEq] at *
  unfold keyLt at *
  omega

theorem keyLe_total (a b : SeqKey × List Nat) : (keyLe a b || keyLe b a) = true := by
  obtain ⟨⟨a1, a2⟩, _⟩ := a
  obtain ⟨⟨b1, b2⟩, _⟩ := b
  simp only [keyLe, Bool.or_eq_true, decide_eq_true_eq, Prod.mk.injEq]
  unfold keyLt
  omega

theorem sortChunks_pairwise {l : List (SeqKey × List Nat)}
    (hnodup : (l.map Prod.fst).Nodup) : (sortChunks l).Pairwise entryLt := by
  have hs : (sortChunks l).Pairwise (fun a b => keyLe a b = true) :=
    List.sorted_mergeSort keyLe_trans keyLe_total l
  have hperm : (sortChunks l).Perm l := List.mergeSort_perm l keyLe
  have hnd : ((sortChunks l).map Prod.fst).Nodup :=
    ((hperm.map Prod.fst).nodup_iff).mpr hnodup
  have hne : (sortChunks l).Pairwise (fun a b => a.1 ≠ b.1) :=
    (List.pairwise_map).mp hnd
  refine (hs.and hne).imp ?_
  rintro a b ⟨hle, hab⟩
  simp only [keyLe, Bool.or_eq_true, decide_eq_true_eq] at hle
  rcases hle with h | h
  · exact h
  · exact absurd h hab

/-- C1 (amended): for chunks whose sequence keys are pairwise distinct, the
buffer assembled by `startTranscription` is independent of the arrival order
and equals the concatenation of the decoded payloads sorted first by numeric
timestamp and then by numeric index. -/
theorem c1_reassembly_sorted (l l' : List (SeqKey × List Nat))
    (hperm : l.Perm l') (hnodup : (l.map Prod.fst).Nodup) :
    assembleBuffer (buildStore l') = ((sortChunks l).map Prod.snd).flatten := by
  have hnodup' : (l'.map Prod.fst).Nodup :=
    ((hperm.map Prod.fst).nodup_iff).mp hnodup
  obtain ⟨hsorted, hbperm⟩ := buildStore_sorted_perm hnodup'
  have hchain : (buildStore l').Perm (sortChunks l) :=
    (hbperm.trans hperm.symm).trans (List.mergeSort_perm l keyLe).symm
  have heq : buildStore l' = sortChunks l :=
    List.eq_of_perm_of_sorted hchain hsorted (sortChunks_pairwise hnodup)
  rw [assembleBuffer, heq]

/-- C1 witness: the spec's own example, chunks `"100-0"`, `"100-2"`, `"100-1"`
arriving in that out-of-order sequence, reassembles to the in-order
concatenation of the three payloads. -/
theorem c1_reassembly_sorted_witness :
    ([((100, 0), [10]), ((100, 1), [11]), ((100, 2), [12])].Perm
        [((100, 0), [10]), ((100, 2), [12]), ((100, 1), [11])] ∧
      (([((100, 0), [10]), ((100, 1), [11]),
          ((100, 2), [12])].map (Prod.fst (α := SeqKey) (β := List Nat))).Nodup)) ∧
    assembleBuffer (buildStore
        [((100, 0), [10]), ((100, 2), [12]), ((100, 1), [11])]) =
      ((sortChunks [((100, 0), [10]), ((100, 1), [11]),
          ((100, 2), [12])]).map Prod.snd).flatten :=
  ⟨⟨by decide, by decide⟩,
    c1_reassembly_sorted
      [((100, 0), [10]), ((100, 1), [11]), ((100, 2), [12])]
      [((100, 0), [10]), ((100, 2), [12]), ((100, 1), [11])]
      (by decide) (by decide)⟩

/-- C1 counterexample to the claim as stated: without the distinct-key
restriction the claim fails, because `TreeMap.put` overwrites the value of an
equal key.  Two arrival orders of the same two-chunk collection (both chunks
keyed `"100-0"`) assemble different buffers, so the buffer cannot equal one
fixed order-independent concatenation. -/
theorem c1_reassembly_counterexample :
    assembleBuffer (buildStore [((100, 0), [1]), ((100, 0), [2])]) ≠
      assembleBuffer (buildStore [((100, 0), [2]), ((100, 0), [1])]) := by
  decide

/-! ## Debounce scheduling: `Transcriber.handleNewDataAdded`, the silence and
max-timeout timers, and single-flight task submission -/

def SILENCE_TIMEOUT_MS : Int := 3000

def MAX_AUDIO_TIMEOUT_MS : Int := 15000

/-- The per-client Transcriber state guarded by `transcriptionLock`.
`inFlight` counts transcription tasks submitted to `transcriptionExecutor`
and not yet finished; `currentTranscriptionTask == null || isDone()` in the
source corresponds to `inFlight = 0`.  Timers are embedded by their
scheduled fire time; `cancel(false)` is best-effort (a callback already
racing for the lock still runs), so a cancelled timer moves to a stale list
from which it may still fire.  `clock` records the time of the last event,
making event times monotone along a trace. -/
structure TranscriberState where
  base64AudioChunks : List (SeqKey × List Nat)
  websocketAudioBuffer : List Nat
  lastDataAddedTimestamp : Int
  firstDataAddedTimestamp : Int
  silenceTimer : Option Int
  staleSilenceTimers : List Int
  maxTimer : Option Int
  staleMaxTimers : List Int
  inFlight : Nat
  newDataAvailable : Bool
  currentTranscription : String
  previousTranscription : String
  clock : Int

def initState : TranscriberState :=
  { base64AudioChunks := [], websocketAudioBuffer := [],
    lastDataAddedTimestamp := 0, firstDataAddedTimestamp := 0,
    silenceTimer := none, staleSilenceTimers := [],
    maxTimer := none, staleMaxTimers := [],
    inFlight := 0, newDataAvailable := false,
    currentTranscription := "", previousTranscription := "", clock := 0 }

/-- Cancelling a pending timer with `cancel(false)`: best effort, the timer
may still fire, so it is retained as stale. -/
def cancelTimer (t : Option Int) (stale : List Int) : List Int :=
  match t with
  | none => stale
  | some x => x :: stale

/-- `Transcriber.hasAudioData` (lines 235-237). -/
def hasAudioData (s : TranscriberState) : Bool :=
  !s.base64AudioChunks.isEmpty || !s.websocketAudioBuffer.isEmpty

/-- `Transcriber.handleNewDataAdded` (lines 183-230): record the arrival
time, on the first data since the last transcription arm the max-timeout
timer, and (re)arm the silence timer for `now + 3000`. -/
def recordArrival (now : Int) (s : TranscriberState) : TranscriberState :=
  { s with newDataAvailable := true, lastDataAddedTimestamp := now }

def armMaxIfFirst (now : Int) (s : TranscriberState) : TranscriberState :=
  if s.firstDataAddedTimestamp = 0 then
    { s with firstDataAddedTimestamp := now,
             staleMaxTimers := cancelTimer s.maxTimer s.staleMaxTimers,
             maxTimer := some (now + MAX_AUDIO_TIMEOUT_MS) }
  else s

def armSilence (now : Int) (s : TranscriberState) : TranscriberState :=
  { s with staleSilenceTimers := cancelTimer s.silenceTimer s.staleSilenceTimers,
           silenceTimer := some (now + SILENCE_TIMEOUT_MS) }

def handleNewDataAdded (now : Int) (s : TranscriberState) : TranscriberState :=
  armSilence now (armMaxIfFirst now (recordArrival now s))

/-- The body of the silence-timer callback (lines 213-229): re-check the time
since the last chunk; if data arrived after the timer was scheduled,
reschedule via `handleNewDataAdded`; otherwise submit a transcription task
when the buffer is non-empty and no task is in flight. -/
def silenceCallback (now : Int) (s : TranscriberState) : TranscriberState :=
  if now - s.lastDataAddedTimestamp < SILENCE_TIMEOUT_MS then
    handleNewDataAdded now s
  else if hasAudioData s = true ∧ s.inFlight = 0 then
    { s with newDataAvailable := false, inFlight := s.inFlight + 1 }
  else s

/-- The body of the max-timeout callback (lines 197-204): submit
unconditionally (no staleness re-check) when the buffer is non-empty and no
task is in flight. -/
def maxCallback (s : TranscriberState) : TranscriberState :=
  if hasAudioData s = true ∧ s.inFlight = 0 then
    { s with newDataAvailable := false, inFlight := s.inFlight + 1 }
  else s

/-- The state effects of a submitted task running `startTranscription`
(lines 242-310) and finishing: pending timers are cancelled (best effort),
`firstDataAddedTimestamp` is reset, the chunk buffers are retained (the
clearing calls are commented out in the source), and the task leaves the
in-flight slot. -/
def completeRun (s : TranscriberState) : TranscriberState :=
  { s with inFlight := s.inFlight - 1,
           firstDataAddedTimestamp := 0,
           staleSilenceTimers := cancelTimer s.silenceTimer s.staleSilenceTimers,
           silenceTimer := none,
           staleMaxTimers := cancelTimer s.maxTimer s.staleMaxTimers,
           maxTimer := none }

/-- Effect of `addBase64Data` (lines 149-161): put the chunk and run
`handleNewDataAdded` under the lock. -/
def arriveBase64Run (now : Int) (k : SeqKey) (v : List Nat)
    (s : TranscriberState) : TranscriberState :=
  handleNewDataAdded now
    { s with base64AudioChunks := treePut s.base64AudioChunks k v, clock := now }

/-- Effect of `addWebsocketData` (lines 168-177). -/
def arriveWebsocketRun (now : Int) (bytes : List Nat)
    (s : TranscriberState) : TranscriberState :=
  handleNewDataAdded now
    { s with websocketAudioBuffer := s.websocketAudioBuffer ++ bytes, clock := now }

def silenceFireRun (now : Int) (s : TranscriberState) : TranscriberState :=
  silenceCallback now { s with silenceTimer := none, clock := now }

def silenceFireStaleRun (now t : Int) (s : TranscriberState) : TranscriberState :=
  silenceCallback now
    { s with staleSilenceTimers := s.staleSilenceTimers.erase t, clock := now }

def maxFireRun (now : Int) (s : TranscriberState) : TranscriberState :=
  maxCallback { s with maxTimer := none, clock := now }

def maxFireStaleRun (now t : Int) (s : TranscriberState) : TranscriberState :=
  maxCallback { s with staleMaxTimers := s.staleMaxTimers.erase t, clock := now }

def taskCompleteRun (now : Int) (s : TranscriberState) : TranscriberState :=
  completeRun { s with clock := now }

/-- One event of the per-client Transcriber, at time `now`: a chunk arrival
from either transport, a (possibly stale) timer firing at or after its
scheduled time, or a submitted task completing. -/
inductive TStep : Int → TranscriberState → TranscriberState → Prop
  | arriveBase64 (now : Int) (k : SeqKey) (v : List Nat)
      (s : TranscriberState) : s.clock ≤ now →
      TStep now s (arriveBase64Run now k v s)
  | arriveWebsocket (now : Int) (bytes : List Nat) (s : TranscriberState) :
      s.clock ≤ now → TStep now s (arriveWebsocketRun now bytes s)
  | silenceFire (now t : Int) (s : TranscriberState) : s.clock ≤ now →
      s.silenceTimer = some t → t ≤ now → TStep now s (silenceFireRun now s)
  | silenceFireStale (now t : Int) (s : TranscriberState) : s.clock ≤ now →
      t ∈ s.staleSilenceTimers → t ≤ now →
      TStep now s (silenceFireStaleRun now t s)
  | maxFire (now t : Int) (s : TranscriberState) : s.clock ≤ now →
      s.maxTimer = some t → t ≤ now → TStep now s (maxFireRun now s)
  | maxFireStale (now t : Int) (s : TranscriberState) : s.clock ≤ now →
      t ∈ s.staleMaxTimers → t ≤ now → TStep now s (maxFireStaleRun now t s)
  | taskComplete (now : Int) (s : TranscriberState) : s.clock ≤ now →
      1 ≤ s.inFlight → TStep now s (taskCompleteRun now s)

/-- States of one client's Transcriber reachable from the initial state
under any interleaving of arrivals, timer firings, and task completions. -/
inductive TReachable : TranscriberState → Prop
  | init : TReachable initState
  | step {now : Int} {s s' : TranscriberState} :
      TReachable s → TStep now s s' → TReachable s'

theorem inFlight_handleNewDataAdded (now : Int) (s : TranscriberState) :
    (handleNewDataAdded now s).inFlight = s.inFlight := by
  unfold handleNewDataAdded armSilence armMaxIfFirst recordArrival
  split <;> rfl

theorem inFlight_silenceCallback_le (now : Int) (s : TranscriberState)
    (h : s.inFlight ≤ 1) : (silenceCallback now s).inFlight ≤ 1 := by
  unfold silenceCallback
  split
  · rw [inFlight_handleNewDataAdded]; exact h
  · split
    · next hc =>
        obtain ⟨-, h0⟩ := hc
        dsimp only
        omega
    · exact h

theorem inFlight_silenceCallback_of_recheck (now : Int) (s : TranscriberState)
    (h : now - s.lastDataAddedTimestamp < SILENCE_TIMEOUT_MS) :
    (silenceCallback now s).inFlight = s.inFlight := by
  unfold silenceCallback
  rw [if_pos h, inFlight_handleNewDataAdded]

theorem inFlight_maxCallback_le (s : TranscriberState) (h : s.inFlight ≤ 1) :
    (maxCallback s).inFlight ≤ 1 := by
  unfold maxCallback
  split
  · next hc =>
      obtain ⟨-, h0⟩ := hc
      dsimp only
      omega
  · exact h

/-- C2: in every reachable Transcriber state, under any interleaving of
chunk arrivals, silence-timer firings, max-timeout firings, and task
completions, at most one transcription task is in flight for the client:
each timer callback submits only when the buffer is non-empty and
`currentTranscriptionTask` is null or done. -/
theorem c2_single_flight (s : TranscriberState) (h : TReachable s) :
    s.inFlight ≤ 1 := by
  induction h with
  | init => decide
  | step _ hstep ih =>
    cases hstep
    case arriveBase64 =>
      rw [arriveBase64Run, inFlight_handleNewDataAdded]; exact ih
    case arriveWebsocket =>
      rw [arriveWebsocketRun, inFlight_handleNewDataAdded]; exact ih
    case silenceFire =>
      exact inFlight_silenceCallback_le _ _ ih
    case silenceFireStale =>
      exact inFlight_silenceCallback_le _ _ ih
    case maxFire =>
      exact inFlight_maxCallback_le _ ih
    case maxFireStale =>
      exact inFlight_maxCallback_le _ ih
    case taskComplete =>
      unfold taskCompleteRun completeRun
      dsimp only
      omega

/-- The spec's single-flight scenario: ten chunk arrivals (times 1000..1009)
followed by the silence-timer firing at 4009. -/
def c2TraceState : TranscriberState :=
  silenceFireRun 4009
    (arriveBase64Run 1009 (100, 9) [9]
      (arriveBase64Run 1008 (100, 8) [8]
        (arriveBase64Run 1007 (100, 7) [7]
          (arriveBase64Run 1006 (100, 6) [6]
            (arriveBase64Run 1005 (100, 5) [5]
              (arriveBase64Run 1004 (100, 4) [4]
                (arriveBase64Run 1003 (100, 3) [3]
                  (arriveBase64Run 1002 (100, 2) [2]
                    (arriveBase64Run 1001 (100, 1) [1]
                      (arriveBase64Run 1000 (100, 0) [0] initState))))))))))

/-- C2 witness: the final state of ten arrivals followed by silence is
reachable, and the invariant instantiated there gives at most one in-flight
task (in fact exactly one was submitted). -/
theorem c2_single_flight_witness :
    TReachable c2TraceState ∧ c2TraceState.inFlight ≤ 1 := by
  have h0 : TReachable initState := .init
  have h1 := TReachable.step h0
    (TStep.arriveBase64 1000 (100, 0) [0] _ (by decide))
  have h2 := TReachable.step h1
    (TStep.arriveBase64 1001 (100, 1) [1] _ (by decide))
  have h3 := TReachable.step h2
    (TStep.arriveBase64 1002 (100, 2) [2] _ (by decide))
  have h4 := TReachable.step h3
    (TStep.arriveBase64 1003 (100, 3) [3] _ (by decide))
  have h5 := TReachable.step h4
    (TStep.arriveBase64 1004 (100, 4) [4] _ (by decide))
  have h6 := TReachable.step h5
    (TStep.arriveBase64 1005 (100, 5) [5] _ (by decide))
  have h7 := TReachable.step h6
    (TStep.arriveBase64 1006 (100, 6) [6] _ (by decide))
  have h8 := TReachable.step h7
    (TStep.arriveBase64 1007 (100, 7) [7] _ (by decide))
  have h9 := TReachable.step h8
    (TStep.arriveBase64 1008 (100, 8) [8] _ (by decide))
  have h10 := TReachable.step h9
    (TStep.arriveBase64 1009 (100, 9) [9] _ (by decide))
  have h11 := TReachable.step h10
    (TStep.silenceFire 4009 4009 _ (by decide) (by decide) (by decide))
  exact ⟨h11, c2_single_flight _ h11⟩

/-- The spec's debounce scenario, shifted to base time 1000 so that the
`firstDataAddedTimestamp == 0` sentinel means "no data yet": a chunk arrives
at 1000 (silence timer armed for 4000), a second chunk arrives at 3900
(timer re-armed for 6900, the 4000 timer cancelled best-effort). -/
def c3AfterSecondChunk : TranscriberState :=
  arriveBase64Run 3900 (100, 1) [8] (arriveBase64Run 1000 (100, 0) [7] initState)

def c3AfterFire : TranscriberState := silenceFireRun 6900 c3AfterSecondChunk

/-- C3: (1) generally, a silence-timer callback that observes a data arrival
within the silence window (a chunk arrived after the timer was scheduled)
submits no transcription task and merely reschedules, leaving the in-flight
count unchanged and arming a new silence timer a full window after the
re-check; (2) in the spec's scenario (window 3000 ms, armed by a chunk at
base time 1000, second chunk at 3900), no step at or before time 4000 — in
particular no firing of the cancelled 4000 timer — submits a task, and (3)
the rescheduled timer firing at 6900, a full window after the last chunk,
does submit one. -/
theorem c3_debounce_reschedule :
    (∀ (now : Int) (s : TranscriberState),
        now - s.lastDataAddedTimestamp < SILENCE_TIMEOUT_MS →
        silenceCallback now s = handleNewDataAdded now s ∧
          (silenceCallback now s).inFlight = s.inFlight ∧
          (silenceCallback now s).silenceTimer = some (now + SILENCE_TIMEOUT_MS)) ∧
    (∀ (t : Int) (s' : TranscriberState), t < 6900 →
        TStep t c3AfterSecondChunk s' → s'.inFlight = 0) ∧
    (TStep 6900 c3AfterSecondChunk c3AfterFire ∧ c3AfterFire.inFlight = 1) := by
  refine ⟨?_, ?_, ?_, ?_⟩
  · intro now s h
    refine ⟨if_pos h, inFlight_silenceCallback_of_recheck now s h, ?_⟩
    rw [silenceCallback, if_pos h]
    unfold handleNewDataAdded armSilence
    rfl
  · intro t s' ht hstep
    cases hstep
    case arriveBase64 =>
      rw [arriveBase64Run, inFlight_handleNewDataAdded]; rfl
    case arriveWebsocket =>
      rw [arriveWebsocketRun, inFlight_handleNewDataAdded]; rfl
    case silenceFire =>
      rename_i t' hle hclock htimer
      exfalso
      have h6900 : c3AfterSecondChunk.silenceTimer = some 6900 := rfl
      have heq : (some (6900 : Int)) = some t' := h6900.symm.trans htimer
      have ht' : t' = 6900 := by injection heq with h'; omega
      omega
    case silenceFireStale =>
      rename_i t' hle hclock hmem
      have ht' : t' = 4000 := by
        have hmem4 : t' ∈ [(4000 : Int)] := hmem
        simpa using hmem4
      rw [silenceFireStaleRun, inFlight_silenceCallback_of_recheck]
      · rfl
      · have hlast : ({ c3AfterSecondChunk with
            staleSilenceTimers := c3AfterSecondChunk.staleSilenceTimers.erase t',
            clock := t } : TranscriberState).lastDataAddedTimestamp = 3900 := rfl
        rw [hlast]
        show t - (3900 : Int) < 3000
        omega
    case maxFire =>
      rename_i t' hle hclock htimer
      exfalso
      have h16000 : c3AfterSecondChunk.maxTimer = some 16000 := rfl
      have heq : (some (16000 : Int)) = some t' := h16000.symm.trans htimer
      have ht' : t' = 16000 := by injection heq with h'; omega
      omega
    case maxFireStale =>
      rename_i t' hle hclock hmem
      have hempty : c3AfterSecondChunk.staleMaxTimers = [] := rfl
      rw [hempty] at hmem
      exact absurd hmem (List.not_mem_nil t')
    case taskComplete =>
      rename_i hclock hin
      have h0 : c3AfterSecondChunk.inFlight = 0 := rfl
      omega
  · exact TStep.silenceFire 6900 6900 _ (by decide) (by decide) (by decide)
  · decide

/-- C3 witness: the general reschedule clause instantiated at the scenario's
racy stale firing (time 4000, last arrival 3900), and the no-submission
clause instantiated at that same concrete step. -/
theorem c3_debounce_reschedule_witness :
    ((4000 : Int) - ({ c3AfterSecondChunk with
        staleSilenceTimers := c3AfterSecondChunk.staleSilenceTimers.erase 4000,
        clock := 4000 } : TranscriberState).lastDataAddedTimestamp <
      SILENCE_TIMEOUT_MS) ∧
    (silenceFireStaleRun 4000 4000 c3AfterSecondChunk).inFlight = 0 := by
  constructor
  · decide
  · exact c3_debounce_reschedule.2.1 4000 _ (by decide)
      (TStep.silenceFireStale 4000 4000 _ (by decide) (by decide) (by decide))

/-! ## Per-client instance store: `InstanceManager` -/

inductive Instance where
  | functionResolver
  | transcriber
deriving DecidableEq

/-- A thrown Java exception, identified by its class and message. -/
inductive JavaError where
  | illegalArgument (msg : String)
  | runtime (msg : String)
deriving DecidableEq

/-- `InstanceManager.createNewInstance` (InstanceManager.java lines 52-65).
The `switch` — including its `throw new IllegalArgumentException` on the
default branch — runs inside the `try`, and `catch (Exception e)` catches
every exception thrown there and rethrows a `RuntimeException`. -/
def createNewInstance (className : String) : Except JavaError Instance :=
  let body : Except JavaError Instance :=
    if className = "FunctionResolver" then .ok .functionResolver
    else if className = "Transcriber" then .ok .transcriber
    else .error (.illegalArgument ("Unknown class: " ++ className))
  match body with
  | .ok v => .ok v
  | .error _ => .error (.runtime ("Failed to create instance for " ++ className))

/-- `InstanceManager.getInstance` for one client (lines 35-42): return the
cached instance for the class name, otherwise create, cache and return a new
one; a thrown exception propagates to the caller. -/
def getInstance (instances : List (String × Instance)) (className : String) :
    Except JavaError (List (String × Instance) × Instance) :=
  match instances.lookup className with
  | some v => .ok (instances, v)
  | none =>
    match createNewInstance className with
    | .ok v => .ok ((className, v) :: instances, v)
    | .error e => .error e

/-- C9: the claim is right about the intent — `createNewInstance` is
documented to throw `IllegalArgumentException` for an unknown class name,
distinct from the `RuntimeException` for a failed construction — but the
code puts the `throw` inside its own `try`, so `catch (Exception e)` wraps
it: a caller asking for the unknown kind `"Foo"` observes only the
`RuntimeException` signal, never the distinct programming-error signal. -/
theorem c9_unknown_kind_signal :
    getInstance [] "Foo" =
      .error (.runtime "Failed to create instance for Foo") ∧
    createNewInstance "Foo" =
      .error (.runtime "Failed to create instance for Foo") ∧
    createNewInstance "FunctionResolver" = .ok .functionResolver ∧
    createNewInstance "Transcriber" = .ok .transcriber ∧
    ∀ msg, createNewInstance "Foo" ≠ .error (.illegalArgument msg) := by
  refine ⟨rfl, rfl, rfl, rfl, ?_⟩
  intro msg h
  have h' : (Except.error (ε := JavaError) (α := Instance)
      (.runtime "Failed to create instance for Foo")) =
      .error (.illegalArgument msg) :=
    (show createNewInstance "Foo" =
      .error (.runtime "Failed to create instance for Foo") from rfl).symm.trans h
  exact absurd h' (by simp)

/-! ## Adaptive polling backoff: client `pollWithBackoff` -/

/-- Outcome of one `transcribe` poll request as the client observes it:
the parsed transcription, or a thrown/rejected error. -/
inductive PollOutcome where
  | ok (transcription : String)
  | err

structure PollState where
  backoffDelay : Rat
  lastTranscription : String

/-- One iteration of the client's `pollWithBackoff` loop (lines 916-949):
a changed transcription resets the delay to `minDelay` (1000 ms), an
unchanged one multiplies the delay by 1.05 capped at `maxDelay` (10000 ms),
and an error jumps to `maxDelay`.  JavaScript numbers are embedded as
rationals. -/
def pollStep (o : PollOutcome) (s : PollState) : PollState :=
  match o with
  | .ok t =>
    if t ≠ s.lastTranscription then
      { backoffDelay := 1000, lastTranscription := t }
    else
      { s with backoffDelay := min (s.backoffDelay * (21 / 20)) 10000 }
  | .err => { s with backoffDelay := 10000 }

/-- `n` consecutive polls whose transcription equals the last seen value. -/
def unchangedPolls (n : Nat) (s : PollState) : PollState :=
  match n with
  | 0 => s
  | n + 1 => unchangedPolls n (pollStep (.ok s.lastTranscription) s)

theorem pollStep_unchanged (s : PollState) :
    pollStep (.ok s.lastTranscription) s =
      { s with backoffDelay := min (s.backoffDelay * (21 / 20)) 10000 } := by
  simp [pollStep]

theorem unchangedPolls_delay (n : Nat) :
    ∀ s : PollState, s.backoffDelay ≤ 10000 →
      (unchangedPolls n s).backoffDelay =
        min (s.backoffDelay * (21 / 20 : Rat) ^ n) 10000 := by
  induction n with
  | zero =>
    intro s h
    simpa [unchangedPolls] using (min_eq_left h).symm
  | succ n ih =>
    intro s h
    rw [unchangedPolls, pollStep_unchanged]
    rw [ih _ (min_le_right _ _)]
    have hmul : min (s.backoffDelay * (21 / 20)) 10000 * (21 / 20 : Rat) ^ n =
        min (s.backoffDelay * (21 / 20) * (21 / 20 : Rat) ^ n)
          (10000 * (21 / 20 : Rat) ^ n) :=
      min_mul_of_nonneg _ _ (by positivity)
    rw [hmul, min_assoc]
    have hceil : min ((10000 : Rat) * (21 / 20 : Rat) ^ n) 10000 = 10000 := by
      refine min_eq_right ?_
      have h1 : (1 : Rat) ≤ (21 / 20 : Rat) ^ n := one_le_pow₀ (by norm_num)
      nlinarith
    rw [hceil, mul_assoc, ← pow_succ' (21 / 20 : Rat) n]

/-- C5: starting from the 1000 ms minimum, after `n` consecutive unchanged
polls the backoff delay equals `min (1000 * 1.05 ^ n) 10000`; any changed
poll resets the delay to 1000 ms; an errored poll jumps to the 10000 ms
ceiling. -/
theorem c5_poll_backoff (s : PollState) (n : Nat) (h : s.backoffDelay = 1000) :
    (unchangedPolls n s).backoffDelay =
      min (1000 * (21 / 20 : Rat) ^ n) 10000 ∧
    (∀ (s' : PollState) (t : String), t ≠ s'.lastTranscription →
      (pollStep (.ok t) s').backoffDelay = 1000) ∧
    (∀ s' : PollState, (pollStep .err s').backoffDelay = 10000) := by
  refine ⟨?_, ?_, fun s' => rfl⟩
  · rw [unchangedPolls_delay n s (by rw [h]; norm_num), h]
  · intro s' t ht
    simp [pollStep, ht]

/-- C5 witness: two unchanged polls from the initial 1000 ms delay reach
`min (1000 * 1.05 ^ 2) 10000` (= 1102.5 ms). -/
theorem c5_poll_backoff_witness :
    (({ backoffDelay := 1000, lastTranscription := "" } : PollState).backoffDelay
        = 1000) ∧
    (unchangedPolls 2
        { backoffDelay := 1000, lastTranscription := "" }).backoffDelay =
      min (1000 * (21 / 20 : Rat) ^ 2) 10000 :=
  ⟨rfl, (c5_poll_backoff { backoffDelay := 1000, lastTranscription := "" } 2
    rfl).1⟩

/-! ## Silence detection: client `isSilence` -/

/-- The sample extraction of `isSilence`
(`(bytes[i + 1] << 8) | (bytes[i] & 0xFF)`, line 1228): `bytes` is a
`Uint8Array`, so both operands are in `0..255` and the result is the plain
unsigned 16-bit value — there is no sign extension in JavaScript here. -/
def jsSample (lo hi : Nat) : Nat :=
  (hi <<< 8) ||| (lo &&& 0xFF)

/-- Sum of `Math.abs(sample)` over the loop
`for (i = 0; i < numBytesRead - 1; i += 2)`: two bytes per sample, a
trailing odd byte ignored.  The extracted samples are non-negative, so
`Math.abs` is the identity. -/
def sampleAbsSum : List Nat → Nat
  | lo :: hi :: rest => jsSample lo hi + sampleAbsSum rest
  | _ => 0

/-- `energy = sum / (numBytesRead / 2)` (line 1232), JavaScript real
division embedded over the rationals. -/
def energy (bytes : List Nat) : Rat :=
  (sampleAbsSum bytes : Rat) / ((bytes.length : Rat) / 2)

/-- Client `isSilence` (lines 1219-1236): report silence exactly when the
computed energy is below the threshold. -/
def isSilence (bytes : List Nat) (threshold : Rat) : Bool :=
  decide (energy bytes < threshold)

/-- Modelled from the spec and the function's own documentation: the energy
as the average absolute value of the signed 16-bit little-endian samples
("The absolute value of each sample is computed", doc of `isSilence`). -/
def signedSample (lo hi : Nat) : Int :=
  let u : Nat := hi * 256 + lo
  if u < 32768 then (u : Int) else (u : Int) - 65536

def signedAbsSum : List Nat → Nat
  | lo :: hi :: rest => (signedSample lo hi).natAbs + signedAbsSum rest
  | _ => 0

def signedEnergy (bytes : List Nat) : Rat :=
  (signedAbsSum bytes : Rat) / ((bytes.length : Rat) / 2)

/-- C6: the claim (and the function's documentation) read the 16-bit PCM
samples as signed, but the extraction `(hi << 8) | lo` on `Uint8Array`
elements never sign-extends, and `Math.abs` of the always-non-negative
result is dead code.  A segment of one sample with signed value -1 (bytes
`0xFF 0xFF`) has signed energy 1 — silence for the threshold 2 per the
claim — yet the code computes energy 65535 and reports non-silence. -/
theorem c6_silence_sign_bug :
    isSilence [255, 255] 2 = false ∧
    energy [255, 255] = 65535 ∧
    signedEnergy [255, 255] = 1 ∧
    ((1 : Rat) < 2) := by
  have hs : sampleAbsSum [255, 255] = 65535 := by decide
  have hss : signedAbsSum [255, 255] = 1 := by decide
  have hlen : (([255, 255] : List Nat).length : Rat) = 2 := by norm_num
  have he : energy [255, 255] = 65535 := by
    rw [energy, hs, hlen]; norm_num
  have hse : signedEnergy [255, 255] = 1 := by
    rw [signedEnergy, hss, hlen]; norm_num
  refine ⟨?_, he, hse, by norm_num⟩
  rw [isSilence, he]
  simp only [decide_eq_false_iff_not]
  norm_num

/-! ## Transcription invocation and retry: `Transcriber.transcribeAudio` -/

/-- Java's `String.trim()` removes leading and trailing characters with code
point at most `U+0020`. -/
def isJavaSpace (c : Char) : Bool := c.toNat ≤ 32

def javaTrim (s : String) : String :=
  String.mk (((s.data.dropWhile isJavaSpace).reverse.dropWhile isJavaSpace).reverse)

/-- Outcome of one Whisper API call for an attempt. -/
inductive ApiOutcome where
  | success (text : String)
  | rateLimit
  | otherError
deriving DecidableEq

/-- `Transcriber.transcribeAudio` (lines 403-464), driven by the sequence of
outcomes the API produces for the successive attempts on the same audio
payload; returns the resulting `currentTranscription` (starting from `cur`)
together with the number of API attempts made.  A 429 rate-limit response
sleeps a fixed cooldown and then calls `transcribeAudio` again recursively
on the same payload; any other failure ends the cycle without an update; a
successful but blank result also leaves `currentTranscription` unchanged. -/
def transcribeAudio (outcomes : List ApiOutcome) (cur : String) : String × Nat :=
  match outcomes with
  | [] => (cur, 0)
  | o :: rest =>
    match o with
    | .success t => (if (javaTrim t).data.isEmpty then cur else javaTrim t, 1)
    | .rateLimit =>
      let r := transcribeAudio rest cur
      (r.1, r.2 + 1)
    | .otherError => (cur, 1)

/-- C7 counterexample to the claim as stated: the 429 retry is not bounded
to a single extra attempt.  With two consecutive rate-limit responses the
code makes a third attempt (and would keep retrying for any number of
consecutive 429s), contradicting "retries the same audio payload once
more". -/
theorem c7_retry_counterexample :
    (transcribeAudio [.rateLimit, .rateLimit, .success "hi"] "prior").2 = 3 ∧
    (transcribeAudio [.rateLimit, .rateLimit, .success "hi"] "prior").1 = "hi" := by
  constructor <;> decide

/-- C7 (amended): every 429 sleeps the fixed cooldown and retries the same
payload, so `k` consecutive rate-limit responses produce exactly `k + 1`
attempts — the retry loop is unbounded while 429 persists, not a single
bounded retry; and on any other failure the cycle is abandoned without
updating `currentTranscription`, preserving the prior value for the next
poll or push. -/
theorem c7_retry_on_rate_limit (k : Nat) (cur t : String)
    (ht : (javaTrim t).data.isEmpty = false) :
    transcribeAudio (List.replicate k .rateLimit ++ [.otherError]) cur =
      (cur, k + 1) ∧
    transcribeAudio (List.replicate k .rateLimit ++ [.success t]) cur =
      (javaTrim t, k + 1) := by
  induction k with
  | zero =>
    refine ⟨rfl, ?_⟩
    simp [transcribeAudio, ht]
  | succ k ih =>
    obtain ⟨ih1, ih2⟩ := ih
    constructor
    · show (let r := transcribeAudio (List.replicate k .rateLimit ++ [.otherError]) cur;
        (r.1, r.2 + 1)) = (cur, k + 1 + 1)
      rw [ih1]
    · show (let r := transcribeAudio (List.replicate k .rateLimit ++ [.success t]) cur;
        (r.1, r.2 + 1)) = (javaTrim t, k + 1 + 1)
      rw [ih2]

/-- C7 witness: two consecutive 429s then success — three attempts, result
taken from the final successful call. -/
theorem c7_retry_on_rate_limit_witness :
    ((javaTrim "hi").data.isEmpty = false) ∧
    transcribeAudio (List.replicate 2 .rateLimit ++ [.otherError]) "prior" =
      ("prior", 3) ∧
    transcribeAudio (List.replicate 2 .rateLimit ++ [.success "hi"]) "prior" =
      (javaTrim "hi", 3) :=
  ⟨by decide, (c7_retry_on_rate_limit 2 "prior" "hi" (by decide)).1,
    (c7_retry_on_rate_limit 2 "prior" "hi" (by decide)).2⟩

/-! ## Push delivery: `Transcriber.sendTranscriptionToWebSockets` -/

/-- A registered WebSocket session: its id and whether it is open. -/
structure Session where
  id : Nat
  isOpen : Bool
deriving DecidableEq

structure PushState where
  previousTranscription : String
  activeSessions : List Session
deriving DecidableEq

/-- `Transcriber.sendTranscriptionToWebSockets` (lines 363-396): only when
the new transcription differs from `previousTranscription` and sessions are
registered does the method update `previousTranscription`, send the JSON
message to every open session, and prune the sessions found closed.
Returns the new state and the ids the message was delivered to. -/
def sendTranscriptionToWebSockets (s : PushState) (transcription : String) :
    PushState × List Nat :=
  if transcription ≠ s.previousTranscription ∧ s.activeSessions ≠ [] then
    ({ previousTranscription := transcription,
       activeSessions := s.activeSessions.filter (fun x => x.isOpen) },
     (s.activeSessions.filter (fun x => x.isOpen)).map (fun x => x.id))
  else (s, [])

/-- C8: pushing the same transcription twice in a row yields exactly one
delivery event — the first call sends to every open registered session and
the second sends nothing; moreover a send happens only when the new value
differs from `previousTranscription`, and `previousTranscription` changes
only when a new result differs from it. -/
theorem c8_duplicate_suppression :
    (∀ (s : PushState) (t : String), t ≠ s.previousTranscription →
      s.activeSessions ≠ [] →
      (sendTranscriptionToWebSockets s t).2 =
        (s.activeSessions.filter (fun x => x.isOpen)).map (fun x => x.id) ∧
      (sendTranscriptionToWebSockets (sendTranscriptionToWebSockets s t).1 t).2
        = []) ∧
    (∀ (s : PushState) (t : String),
      (sendTranscriptionToWebSockets s t).2 ≠ [] →
      t ≠ s.previousTranscription) ∧
    (∀ (s : PushState) (t : String),
      (sendTranscriptionToWebSockets s t).1.previousTranscription ≠
        s.previousTranscription →
      t ≠ s.previousTranscription) := by
  refine ⟨?_, ?_, ?_⟩
  · intro s t ht hs
    rw [sendTranscriptionToWebSockets, if_pos ⟨ht, hs⟩]
    refine ⟨rfl, ?_⟩
    rw [sendTranscriptionToWebSockets]
    rw [if_neg]
    rintro ⟨hne, -⟩
    exact hne rfl
  · intro s t h
    by_contra heq
    rw [sendTranscriptionToWebSockets, if_neg (fun hc => hc.1 heq)] at h
    exact h rfl
  · intro s t h
    by_contra heq
    rw [sendTranscriptionToWebSockets, if_neg (fun hc => hc.1 heq)] at h
    exact h rfl

/-- One open session (id 1) with no transcription delivered yet. -/
def c8SampleState : PushState := ⟨"", [⟨1, true⟩]⟩

/-- C8 witness: one open session, a fresh value pushed twice — the first
push delivers to session 1, the second delivers to nobody. -/
theorem c8_duplicate_suppression_witness :
    ("hello" ≠ c8SampleState.previousTranscription ∧
      c8SampleState.activeSessions ≠ []) ∧
    (sendTranscriptionToWebSockets c8SampleState "hello").2 = [1] ∧
    (sendTranscriptionToWebSockets
        (sendTranscriptionToWebSockets c8SampleState "hello").1 "hello").2 = [] := by
  refine ⟨⟨by decide, by decide⟩, ?_⟩
  have h := c8_duplicate_suppression.1 c8SampleState "hello" (by decide) (by decide)
  exact ⟨h.1, h.2⟩

/-! ## Function resolution and context compression: `FunctionResolver` -/

inductive ChatMsg where
  | system (content : String)
  | user (content : String)
deriving DecidableEq

def COMPRESSION_THRESHOLD : Nat := 3

/-- The FunctionResolver state: the retained raw history (contents of the
stored `ChatRequestUserMessage`s), the compressed summary (empty until the
first compression), and the pending query. -/
structure ResolverState where
  contextHistory : List String
  contextSummary : String
  query : String
deriving DecidableEq

def fixedSystemInstruction : String :=
  "You are a helpful assistant for interacting with an HTML page to extract information and perform actions on various elements (e.g., entering values in fields, clicking buttons, selecting dropdowns). For values, never add the unit. The unit is given by the HTML element names (e.g., Voltage (V) => value in V). \n\nIMPORTANT: Only use past context (previously set values or selections) when the query directly refers to them. If the user does not mention past information, do NOT use it for new function calls."

def summaryPrompt : String :=
  "Use the previous context summary only if the query refers to it. If the query does not mention past information, ignore it. Context summary: "

/-- The message sequence `resolveFunctions` assembles (lines 137-158): the
fixed system instruction, the context-summary system message only when a
summary exists, the retained raw history, then the pending query. -/
def buildChatMessages (s : ResolverState) : List ChatMsg :=
  [ChatMsg.system fixedSystemInstruction] ++
    (if s.contextSummary ≠ "" then
      [ChatMsg.system (summaryPrompt ++ s.contextSummary)]
    else []) ++
    s.contextHistory.map ChatMsg.user ++ [ChatMsg.user s.query]

/-- The full-context string `compressContext` builds (lines 258-271):
any existing summary followed by all raw history messages. -/
def fullContext (summary : String) (history : List String) : String :=
  (if summary ≠ "" then
    "Previous context summary: " ++ summary ++ "\n\nNew messages:\n"
  else "") ++
    String.join (history.map (fun m => m ++ "\n"))

/-- `FunctionResolver.compressContext` (lines 250-278): ask the model (the
`summarize` oracle) to compress the existing summary plus the full raw
history, store the reply as the new summary, and clear the raw history. -/
def compressContext (s : ResolverState) (summarize : String → String) :
    ResolverState :=
  { s with
    contextSummary := summarize (fullContext s.contextSummary s.contextHistory),
    contextHistory := [] }

/-- The model's reply: tool calls (each with its name and its arguments
when they parse as JSON, `none` when `JsonParser.parseString` would throw)
or a plain message. -/
inductive LLMResponse where
  | toolCalls (calls : List (String × Option String)) (content : String)
  | message (content : String)

inductive ResolveOutput where
  | functions (calls : List (String × String))
  | message (content : String)
  | error (msg : String)
deriving DecidableEq

def ResolveOutput.isErr : ResolveOutput → Bool
  | .error _ => true
  | _ => false

/-- Building the functions array (lines 174-184): the loop aborts with an
exception at the first tool call whose arguments fail to parse. -/
def buildFunctions : List (String × Option String) → Option (List (String × String))
  | [] => some []
  | (n, some a) :: rest => (buildFunctions rest).map (fun l => (n, a) :: l)
  | (_, none) :: _ => none

/-- `FunctionResolver.resolveFunctions` (lines 135-216) with the network
call abstracted by the `resp` reply and the compression call by the
`summarize` oracle.  The user turn is appended to history before the reply
is processed; the tool-call branch appends the synthetic
"previous response" turn and compresses inside the `try`; its `catch`
returns the error object, skipping both; the message branch compresses
before returning. -/
def resolveFunctions (s : ResolverState) (resp : LLMResponse)
    (summarize : String → String) : ResolverState × ResolveOutput :=
  let hist1 := s.contextHistory ++ [s.query]
  match resp with
  | .message content =>
    let s1 := { s with contextHistory := hist1 }
    let s2 := if COMPRESSION_THRESHOLD * 2 ≤ s1.contextHistory.length then
        compressContext s1 summarize
      else s1
    (s2, .message content)
  | .toolCalls calls content =>
    match buildFunctions calls with
    | some fns =>
      let hist2 := hist1 ++ ["For context, last LLM Response: " ++ content]
      let s1 := { s with contextHistory := hist2 }
      let s2 := if COMPRESSION_THRESHOLD * 2 ≤ s1.contextHistory.length then
          compressContext s1 summarize
        else s1
      (s2, .functions fns)
    | none =>
      ({ s with contextHistory := hist1 },
        .error "Failed to process function calls")

/-- The raw history a round accumulates before its compression check. -/
def roundRawHistory (s : ResolverState) (resp : LLMResponse) : List String :=
  match resp with
  | .message _ => s.contextHistory ++ [s.query]
  | .toolCalls calls content =>
    match buildFunctions calls with
    | some _ =>
      s.contextHistory ++ [s.query] ++
        ["For context, last LLM Response: " ++ content]
    | none => s.contextHistory ++ [s.query]

/-- C4 counterexample to the claim as stated: a round can bring
`contextHistory` to `2 * COMPRESSION_THRESHOLD` without `compressContext`
running.  With five retained turns, a tool-call reply whose arguments fail
to parse takes the `catch` path: the round ends with six turns, an
unchanged empty summary, and the error output — compression was skipped. -/
theorem c4_compression_counterexample :
    (resolveFunctions ⟨["h1", "h2", "h3", "h4", "h5"], "", "q"⟩
        (.toolCalls [("f", none)] "c") (fun _ => "S")).1.contextHistory.length
      = 6 ∧
    (resolveFunctions ⟨["h1", "h2", "h3", "h4", "h5"], "", "q"⟩
        (.toolCalls [("f", none)] "c") (fun _ => "S")).1.contextSummary = "" ∧
    (resolveFunctions ⟨["h1", "h2", "h3", "h4", "h5"], "", "q"⟩
        (.toolCalls [("f", none)] "c") (fun _ => "S")).2 =
      .error "Failed to process function calls" := by
  refine ⟨rfl, rfl, rfl⟩

/-- C4 (amended): in every round that does not end in the tool-call
processing error path, if the round's raw history reaches
`2 * COMPRESSION_THRESHOLD` then `compressContext` runs in that same round —
the history is cleared to length 0 and the summary is replaced by the
summarizer's reply on the combination of the old summary with the full raw
history (so it is non-empty whenever that reply is); below the threshold
the history is exactly the accumulated raw turns and the summary is
untouched; hence `len(history) < 2 * threshold` is preserved by non-error
rounds; and a resolution call made from a compressed state (empty history,
non-empty summary) assembles exactly the fixed instruction, the summary
message, and the new query — none of the pre-compression raw turns. -/
theorem c4_context_compression (s : ResolverState) (resp : LLMResponse)
    (summarize : String → String)
    (herr : (resolveFunctions s resp summarize).2.isErr = false) :
    (COMPRESSION_THRESHOLD * 2 ≤ (roundRawHistory s resp).length →
      (resolveFunctions s resp summarize).1.contextHistory = [] ∧
      (resolveFunctions s resp summarize).1.contextSummary =
        summarize (fullContext s.contextSummary (roundRawHistory s resp))) ∧
    ((roundRawHistory s resp).length < COMPRESSION_THRESHOLD * 2 →
      (resolveFunctions s resp summarize).1.contextHistory =
        roundRawHistory s resp ∧
      (resolveFunctions s resp summarize).1.contextSummary =
        s.contextSummary) ∧
    (s.contextHistory.length < COMPRESSION_THRESHOLD * 2 →
      (resolveFunctions s resp summarize).1.contextHistory.length <
        COMPRESSION_THRESHOLD * 2) ∧
    (∀ sum q' : String, sum ≠ "" →
      buildChatMessages ⟨[], sum, q'⟩ =
        [ChatMsg.system fixedSystemInstruction,
          ChatMsg.system (summaryPrompt ++ sum), ChatMsg.user q']) := by
  have hmsgs : ∀ sum q' : String, sum ≠ "" →
      buildChatMessages ⟨[], sum, q'⟩ =
        [ChatMsg.system fixedSystemInstruction,
          ChatMsg.system (summaryPrompt ++ sum), ChatMsg.user q'] := by
    intro sum q' hsum
    rw [buildChatMessages]
    simp [hsum]
  cases resp with
  | message content =>
    simp only [resolveFunctions, roundRawHistory]
    by_cases h6 : COMPRESSION_THRESHOLD * 2 ≤ (s.contextHistory ++ [s.query]).length
    · rw [if_pos h6]
      refine ⟨fun _ => ⟨rfl, rfl⟩, fun hlt => absurd h6 (by omega), fun _ => ?_, hmsgs⟩
      show (List.length [] : Nat) < COMPRESSION_THRESHOLD * 2
      decide
    · rw [if_neg h6]
      refine ⟨fun hge => absurd hge h6, fun _ => ⟨rfl, rfl⟩, fun hlt => ?_, hmsgs⟩
      simp only [List.length_append, List.length_cons, List.length_nil] at h6 ⊢
      omega
  | toolCalls calls content =>
    cases hb : buildFunctions calls with
    | none =>
      exfalso
      rw [resolveFunctions] at herr
      simp only [hb] at herr
      exact absurd herr (by decide)
    | some fns =>
      simp only [resolveFunctions, roundRawHistory, hb]
      by_cases h6 : COMPRESSION_THRESHOLD * 2 ≤
          (s.contextHistory ++ [s.query] ++
            ["For context, last LLM Response: " ++ content]).length
      · rw [if_pos h6]
        refine ⟨fun _ => ⟨rfl, rfl⟩, fun hlt => absurd h6 (by omega),
          fun _ => ?_, hmsgs⟩
        show (List.length [] : Nat) < COMPRESSION_THRESHOLD * 2
        decide
      · rw [if_neg h6]
        refine ⟨fun hge => absurd hge h6, fun _ => ⟨rfl, rfl⟩, fun hlt => ?_, hmsgs⟩
        simp only [List.length_append, List.length_cons, List.length_nil] at h6 ⊢
        omega

/-- C4 witness: five retained turns plus a message reply — the round
reaches six turns, compression clears the history and installs the
summarizer's reply as the new summary. -/
theorem c4_context_compression_witness :
    ((resolveFunctions ⟨["h1", "h2", "h3", "h4", "h5"], "", "q"⟩
        (.message "m") (fun _ => "S")).2.isErr = false) ∧
    (COMPRESSION_THRESHOLD * 2 ≤
      (roundRawHistory ⟨["h1", "h2", "h3", "h4", "h5"], "", "q"⟩
        (.message "m")).length) ∧
    (resolveFunctions ⟨["h1", "h2", "h3", "h4", "h5"], "", "q"⟩
        (.message "m") (fun _ => "S")).1.contextHistory = [] ∧
    (resolveFunctions ⟨["h1", "h2", "h3", "h4", "h5"], "", "q"⟩
        (.message "m") (fun _ => "S")).1.contextSummary =
      (fun _ => "S") (fullContext ""
        (roundRawHistory ⟨["h1", "h2", "h3", "h4", "h5"], "", "q"⟩
          (.message "m"))) := by
  refine ⟨rfl, by decide, ?_⟩
  have h := (c4_context_compression ⟨["h1", "h2", "h3", "h4", "h5"], "", "q"⟩
    (.message "m") (fun _ => "S") rfl).1 (by decide)
  exact ⟨h.1, h.2⟩

/-! ## JSON escaping round trip: `escapeJsonString` / `unescapeJsonString`
(identical private helpers in Transcriber.java lines 338-356 and
FunctionResolver.java lines 225-243) -/

/-- Java `String.replace(target, replacement)`: scan left to right, replace
every non-overlapping occurrence of `target`, and continue scanning after
the replacement (the replacement is not rescanned).  Embedded over lists of
characters; every character involved here is ASCII, so the UTF-16 string is
faithfully a list of its characters. -/
def replaceGo (t r : List Char) : List Char → List Char
  | [] => []
  | c :: cs =>
    if t.isPrefixOf (c :: cs) then r ++ replaceGo t r (cs.drop (t.length - 1))
    else c :: replaceGo t r cs
termination_by s => s.length
decreasing_by
  all_goals simp only [List.length_cons, List.length_drop]
  all_goals omega

/-- `escapeJsonString` on the characters: the four sequential `replace`
passes of the source, in source order. -/
def escapeChars (s : List Char) : List Char :=
  replaceGo ['\t'] ['\\', 't']
    (replaceGo ['\r'] ['\\', 'r']
      (replaceGo ['\n'] ['\\', 'n']
        (replaceGo ['"'] ['\\', '"'] s)))

/-- `unescapeJsonString` on the characters: the four sequential `replace`
passes of the source, in source order. -/
def unescapeChars (s : List Char) : List Char :=
  replaceGo ['\\', 't'] ['\t']
    (replaceGo ['\\', 'r'] ['\r']
      (replaceGo ['\\', 'n'] ['\n']
        (replaceGo ['\\', '"'] ['"'] s)))

def escapeJsonString (s : String) : String := String.mk (escapeChars s.data)

def unescapeJsonString (s : String) : String := String.mk (unescapeChars s.data)

/-- Replace every character by a block of characters. -/
def charExpand (f : Char → List Char) (s : List Char) : List Char :=
  (s.map f).flatten

theorem charExpand_cons (f : Char → List Char) (c : Char) (cs : List Char) :
    charExpand f (c :: cs) = f c ++ charExpand f cs := by
  simp [charExpand]

theorem charExpand_append (f : Char → List Char) (u v : List Char) :
    charExpand f (u ++ v) = charExpand f u ++ charExpand f v := by
  simp [charExpand]

theorem charExpand_comp (g f : Char → List Char) (s : List Char) :
    charExpand g (charExpand f s) =
      charExpand (fun c => charExpand g (f c)) s := by
  induction s with
  | nil => rfl
  | cons c cs ih =>
    rw [charExpand_cons, charExpand_append, ih, charExpand_cons]

theorem charExpand_congr {f g : Char → List Char} {s : List Char}
    (h : ∀ c ∈ s, f c = g c) : charExpand f s = charExpand g s := by
  induction s with
  | nil => rfl
  | cons c cs ih =>
    rw [charExpand_cons, charExpand_cons, h c (List.mem_cons_self c cs),
      ih (fun c' hc' => h c' (List.mem_cons_of_mem c hc'))]

theorem charExpand_id (s : List Char) : charExpand (fun c => [c]) s = s := by
  induction s with
  | nil => rfl
  | cons c cs ih => rw [charExpand_cons, ih]; rfl

theorem replaceGo_nil (t r : List Char) : replaceGo t r [] = [] := by
  rw [replaceGo]

theorem replaceGo_cons (t r : List Char) (c : Char) (cs : List Char) :
    replaceGo t r (c :: cs) =
      if t.isPrefixOf (c :: cs) then
        r ++ replaceGo t r (cs.drop (t.length - 1))
      else c :: replaceGo t r cs := by
  rw [replaceGo]

/-- A single-character `replace` expands each character independently. -/
theorem replaceGo_single (a : Char) (r : List Char) (s : List Char) :
    replaceGo [a] r s = charExpand (fun c => if c = a then r else [c]) s := by
  induction s with
  | nil => rw [replaceGo_nil]; rfl
  | cons c cs ih =>
    rw [replaceGo_cons, charExpand_cons]
    by_cases h : a = c
    · subst h
      have hp : ([a].isPrefixOf (a :: cs)) = true := by
        simp [List.isPrefixOf]
      rw [hp, if_pos rfl, if_pos rfl, List.length_singleton]
      simpa using ih
    · have hp : ([a].isPrefixOf (c :: cs)) = false := by
        simp [List.isPrefixOf, h]
      rw [hp]
      simp only [Bool.false_eq_true, if_false]
      rw [if_neg (fun hc => h hc.symm), ih]
      rfl

/-- A `replace` whose target starts with `a` copies any block free of `a`. -/
theorem replaceGo_append_not_head (a : Char) (t' r : List Char)
    (u v : List Char) (hu : a ∉ u) :
    replaceGo (a :: t') r (u ++ v) = u ++ replaceGo (a :: t') r v := by
  induction u with
  | nil => rfl
  | cons c cs ih =>
    have h1 : ¬ a = c := fun h => hu (by rw [h]; exact List.mem_cons_self c cs)
    have hu' : a ∉ cs := fun h => hu (List.mem_cons_of_mem c h)
    rw [List.cons_append, replaceGo_cons]
    have hp : ((a :: t').isPrefixOf (c :: (cs ++ v))) = false := by
      simp [List.isPrefixOf, h1]
    rw [hp]
    simp only [Bool.false_eq_true, if_false]
    rw [ih hu']
    rfl

/-- A two-character `replace` with target `'\\' y` acting on an expansion
whose blocks are either exactly the target, backslash-free, or a two
character escape `'\\' x` with `x` neither `y` nor a backslash, rewrites the
expansion blockwise. -/
theorem replaceGo_expand_two (y : Char) (r : List Char)
    (f f' : Char → List Char) (s : List Char)
    (hf : ∀ c ∈ s, (f c = ['\\', y] ∧ f' c = r) ∨
      (f' c = f c ∧ ('\\' ∉ f c ∨
        ∃ x, f c = ['\\', x] ∧ x ≠ y ∧ x ≠ '\\'))) :
    replaceGo ['\\', y] r (charExpand f s) = charExpand f' s := by
  induction s with
  | nil => simp [charExpand, replaceGo_nil]
  | cons c cs ih =>
    have hc := hf c (List.mem_cons_self c cs)
    have hrest := fun c' hc' => hf c' (List.mem_cons_of_mem c hc')
    rw [charExpand_cons, charExpand_cons]
    rcases hc with ⟨hfc, hfc'⟩ | ⟨hfc', hcase⟩
    · rw [hfc, hfc']
      show replaceGo ['\\', y] r ('\\' :: y :: charExpand f cs) =
        r ++ charExpand f' cs
      rw [replaceGo_cons]
      have hp : ((['\\', y]).isPrefixOf ('\\' :: y :: charExpand f cs)) = true := by
        simp [List.isPrefixOf]
      rw [hp, if_pos rfl]
      show r ++ replaceGo ['\\', y] r ((y :: charExpand f cs).drop 1) =
        r ++ charExpand f' cs
      rw [List.drop_succ_cons, List.drop_zero, ih hrest]
    · rcases hcase with hnb | ⟨x, hx, hxy, hxb⟩
      · rw [hfc', replaceGo_append_not_head '\\' [y] r (f c) _ hnb, ih hrest]
      · rw [hfc', hx]
        show replaceGo ['\\', y] r ('\\' :: x :: charExpand f cs) =
          ('\\' :: x :: []) ++ charExpand f' cs
        rw [replaceGo_cons]
        have hyx : ¬ y = x := fun h => hxy h.symm
        have hbx : ¬ ('\\' : Char) = x := fun h => hxb h.symm
        have hp : ((['\\', y]).isPrefixOf ('\\' :: x :: charExpand f cs))
            = false := by
          simp [List.isPrefixOf, hyx]
        rw [hp]
        simp only [Bool.false_eq_true, if_false]
        have hone : replaceGo ['\\', y] r ([x] ++ charExpand f cs) =
            [x] ++ replaceGo ['\\', y] r (charExpand f cs) :=
          replaceGo_append_not_head '\\' [y] r [x] _ (by simp [hbx])
        simp only [List.singleton_append] at hone
        rw [hone, ih hrest]
        rfl

/-- One character's escape, the combined effect of the four escape passes. -/
def escChar (c : Char) : List Char :=
  if c = '"' then ['\\', '"']
  else if c = '\n' then ['\\', 'n']
  else if c = '\r' then ['\\', 'r']
  else if c = '\t' then ['\\', 't']
  else [c]

theorem escapeChars_eq (s : List Char) : escapeChars s = charExpand escChar s := by
  rw [escapeChars, replaceGo_single, replaceGo_single, replaceGo_single,
    replaceGo_single, charExpand_comp, charExpand_comp, charExpand_comp]
  refine charExpand_congr (fun c _ => ?_)
  by_cases h1 : c = '"'
  · subst h1; decide
  · by_cases h2 : c = '\n'
    · subst h2; decide
    · by_cases h3 : c = '\r'
      · subst h3; decide
      · by_cases h4 : c = '\t'
        · subst h4; decide
        · simp [charExpand, escChar, h1, h2, h3, h4]

/-- Blocks after undoing the quote pass. -/
def esc1 (c : Char) : List Char := if c = '"' then ['"'] else escChar c

/-- Blocks after additionally undoing the newline pass. -/
def esc2 (c : Char) : List Char := if c = '\n' then ['\n'] else esc1 c

/-- Blocks after additionally undoing the carriage-return pass. -/
def esc3 (c : Char) : List Char := if c = '\r' then ['\r'] else esc2 c

theorem escCond1 {s : List Char} (hs : '\\' ∉ s) :
    ∀ c ∈ s, (escChar c = ['\\', '"'] ∧ esc1 c = ['"']) ∨
      (esc1 c = escChar c ∧ ('\\' ∉ escChar c ∨
        ∃ x, escChar c = ['\\', x] ∧ x ≠ '"' ∧ x ≠ '\\')) := by
  intro c hc
  have hcb : c ≠ '\\' := fun h => hs (h ▸ hc)
  by_cases h1 : c = '"'
  · subst h1; exact Or.inl (by decide)
  · by_cases h2 : c = '\n'
    · subst h2
      exact Or.inr ⟨by decide, Or.inr ⟨'n', by decide, by decide, by decide⟩⟩
    · by_cases h3 : c = '\r'
      · subst h3
        exact Or.inr ⟨by decide, Or.inr ⟨'r', by decide, by decide, by decide⟩⟩
      · by_cases h4 : c = '\t'
        · subst h4
          exact Or.inr ⟨by decide, Or.inr ⟨'t', by decide, by decide, by decide⟩⟩
        · refine Or.inr ⟨by simp [esc1, h1], Or.inl ?_⟩
          simp only [escChar, h1, h2, h3, h4, if_false, List.mem_singleton]
          exact fun h => hcb h.symm

theorem escCond2 {s : List Char} (hs : '\\' ∉ s) :
    ∀ c ∈ s, (esc1 c = ['\\', 'n'] ∧ esc2 c = ['\n']) ∨
      (esc2 c = esc1 c ∧ ('\\' ∉ esc1 c ∨
        ∃ x, esc1 c = ['\\', x] ∧ x ≠ 'n' ∧ x ≠ '\\')) := by
  intro c hc
  have hcb : c ≠ '\\' := fun h => hs (h ▸ hc)
  by_cases h2 : c = '\n'
  · subst h2; exact Or.inl (by decide)
  · by_cases h1 : c = '"'
    · subst h1; exact Or.inr ⟨by decide, Or.inl (by decide)⟩
    · by_cases h3 : c = '\r'
      · subst h3
        exact Or.inr ⟨by decide, Or.inr ⟨'r', by decide, by decide, by decide⟩⟩
      · by_cases h4 : c = '\t'
        · subst h4
          exact Or.inr ⟨by decide, Or.inr ⟨'t', by decide, by decide, by decide⟩⟩
        · refine Or.inr ⟨by simp [esc2, h2], Or.inl ?_⟩
          simp only [esc1, escChar, h1, h2, h3, h4, if_false, List.mem_singleton]
          exact fun h => hcb h.symm

theorem escCond3 {s : List Char} (hs : '\\' ∉ s) :
    ∀ c ∈ s, (esc2 c = ['\\', 'r'] ∧ esc3 c = ['\r']) ∨
      (esc3 c = esc2 c ∧ ('\\' ∉ esc2 c ∨
        ∃ x, esc2 c = ['\\', x] ∧ x ≠ 'r' ∧ x ≠ '\\')) := by
  intro c hc
  have hcb : c ≠ '\\' := fun h => hs (h ▸ hc)
  by_cases h3 : c = '\r'
  · subst h3; exact Or.inl (by decide)
  · by_cases h1 : c = '"'
    · subst h1; exact Or.inr ⟨by decide, Or.inl (by decide)⟩
    · by_cases h2 : c = '\n'
      · subst h2; exact Or.inr ⟨by decide, Or.inl (by decide)⟩
      · by_cases h4 : c = '\t'
        · subst h4
          exact Or.inr ⟨by decide, Or.inr ⟨'t', by decide, by decide, by decide⟩⟩
        · refine Or.inr ⟨by simp [esc3, h3], Or.inl ?_⟩
          simp only [esc2, esc1, escChar, h1, h2, h3, h4, if_false,
            List.mem_singleton]
          exact fun h => hcb h.symm

theorem escCond4 {s : List Char} (hs : '\\' ∉ s) :
    ∀ c ∈ s, (esc3 c = ['\\', 't'] ∧ (fun c => [c]) c = ['\t']) ∨
      ((fun c => [c]) c = esc3 c ∧ ('\\' ∉ esc3 c ∨
        ∃ x, esc3 c = ['\\', x] ∧ x ≠ 't' ∧ x ≠ '\\')) := by
  intro c hc
  have hcb : c ≠ '\\' := fun h => hs (h ▸ hc)
  by_cases h4 : c = '\t'
  · subst h4; exact Or.inl (by decide)
  · by_cases h1 : c = '"'
    · subst h1; exact Or.inr ⟨by decide, Or.inl (by decide)⟩
    · by_cases h2 : c = '\n'
      · subst h2; exact Or.inr ⟨by decide, Or.inl (by decide)⟩
      · by_cases h3 : c = '\r'
        · subst h3; exact Or.inr ⟨by decide, Or.inl (by decide)⟩
        · refine Or.inr ⟨by simp [esc3, esc2, esc1, escChar, h1, h2, h3, h4],
            Or.inl ?_⟩
          simp only [esc3, esc2, esc1, escChar, h1, h2, h3, h4, if_false,
            List.mem_singleton]
          exact fun h => hcb h.symm

theorem unescape_escape_chars (s : List Char) (hs : '\\' ∉ s) :
    unescapeChars (escapeChars s) = s := by
  rw [escapeChars_eq s, unescapeChars,
    replaceGo_expand_two '"' ['"'] escChar esc1 s (escCond1 hs),
    replaceGo_expand_two 'n' ['\n'] esc1 esc2 s (escCond2 hs),
    replaceGo_expand_two 'r' ['\r'] esc2 esc3 s (escCond3 hs),
    replaceGo_expand_two 't' ['\t'] esc3 (fun c => [c]) s (escCond4 hs),
    charExpand_id]

/-- C10: the escape/unescape pair used identically by `Transcriber` and
`FunctionResolver` when nesting JSON responses is a round trip on every
string containing no backslash character. -/
theorem c10_escape_unescape_roundtrip (s : String) (h : '\\' ∉ s.data) :
    unescapeJsonString (escapeJsonString s) = s := by
  rw [escapeJsonString, unescapeJsonString]
  show String.mk (unescapeChars (escapeChars s.data)) = s
  rw [unescape_escape_chars s.data h]

/-- C10 witness: a backslash-free string with a quote, a newline and a tab
survives the round trip. -/
theorem c10_escape_unescape_roundtrip_witness :
    ('\\' ∉ ("say \"hi\"\n\tok".data)) ∧
    unescapeJsonString (escapeJsonString "say \"hi\"\n\tok") =
      "say \"hi\"\n\tok" :=
  ⟨by decide, c10_escape_unescape_roundtrip _ (by decide)⟩

end SpeechFunctionCaller
